import Mathlib

set_option maxRecDepth 100000

/-!
Shallow embedding of `src/fs_emulator.c`, a minimal file-system emulator:
an in-memory inode table of 1024 slots, per-inode backing byte streams
(directories hold 36-byte records: a little-endian u32 child id followed by
a 32-byte zero-padded name), and the five interactive commands
(`ls`, `cd`, `mkdir`, `touch`, `exit`).

Modelling conventions:
* C strings (command-name arguments) are lists of byte values (`List Nat`),
  the bytes strictly before the NUL terminator.
* Backing streams are raw byte lists; the on-disk namespace keyed by decimal
  inode id is a map `Nat → Option (List Nat)` (`none` = no such file, which
  makes `fopen(..., "rb")` fail).
* `fopen` failures on write/append (environmental) are injected through
  explicit `ok : Bool` oracle arguments on the operations that open a stream
  for writing; read-opens fail exactly when the stream is absent.
* `stderr` diagnostics are collected as a `List String` result component.
-/

namespace FsEmulator

def MAX_INODES : Nat := 1024

def NAME_LEN : Nat := 32

/-- One slot of the inode table: `used` flag and a one-byte type tag
(`'d'` directory, `'f'` file), as in the C struct `InodeInfo`. -/
structure InodeInfo where
  used : Bool
  type : Char
deriving DecidableEq, Repr

/-- The C global `inode_table`, as a total map from slot index to slot. -/
def InodeTable : Type := Nat → InodeInfo

/-- Pointwise slot assignment `inode_table[i] = v`. -/
def updateTable (t : InodeTable) (i : Nat) (v : InodeInfo) : InodeTable :=
  fun j => if j = i then v else t j

/-- The all-free table produced by `memset(inode_table, 0, ...)`:
every slot has `used = 0` and type byte `0`. -/
def freshTable : InodeTable := fun _ => ⟨false, Char.ofNat 0⟩

/-- `make_name32`: copy a source name into a fixed 32-byte buffer,
zero-filled first (`memset`) then `strncpy`, so the result is the first
32 bytes of the source padded on the right with zero bytes to length 32. -/
def make_name32 (src : List Nat) : List Nat :=
  src.take NAME_LEN ++ List.replicate (NAME_LEN - src.length) 0

/-- Processing of one `(index, type)` record by the `load_inodes_list` loop:
out-of-range indices and unrecognized type bytes are skipped, otherwise the
slot is overwritten as used with that type. -/
def loadRecord (t : InodeTable) (r : Nat × Char) : InodeTable :=
  if MAX_INODES ≤ r.1 then t
  else if r.2 ≠ 'd' ∧ r.2 ≠ 'f' then t
  else updateTable t r.1 ⟨true, r.2⟩

/-- `load_inodes_list`: fold the record stream of the `inodes_list` file
over the table, in stream order (later records overwrite earlier ones). -/
def load_inodes_list (recs : List (Nat × Char)) (t : InodeTable) : InodeTable :=
  recs.foldl loadRecord t

/-- `save_inodes_list`: one `(index, type)` record per used slot, emitted by
the ascending scan `for i = 0 .. MAX_INODES-1`. -/
def save_inodes_list (t : InodeTable) : List (Nat × Char) :=
  (List.range MAX_INODES).filterMap fun i =>
    if (t i).used then some (i, (t i).type) else none

/-- `find_free_inode`: linear scan from 0 for the first slot with
`used = 0`; `none` models the C return value `-1`. -/
def find_free_inode (t : InodeTable) : Option Nat :=
  (List.range MAX_INODES).find? fun i => !(t i).used

/-- A directory entry as parsed from a directory stream: child inode id
plus the raw 32 name bytes. -/
structure DirEnt where
  inode : Nat
  name : List Nat
deriving DecidableEq, Repr

/-- Little-endian byte serialization of a `uint32_t` (x86 `fwrite`). -/
def encodeU32 (n : Nat) : List Nat :=
  [n % 256, n / 256 % 256, n / 65536 % 256, n / 16777216 % 256]

/-- Little-endian `uint32_t` read from the first four bytes of a stream. -/
def decodeU32 (bs : List Nat) : Nat :=
  bs.getD 0 0 + 256 * bs.getD 1 0 + 65536 * bs.getD 2 0 + 16777216 * bs.getD 3 0

/-- The 36 bytes `fwrite` emits for one directory entry: u32 child id
followed by the 32 name bytes. -/
def encodeDirEnt (child : Nat) (name32 : List Nat) : List Nat :=
  encodeU32 child ++ name32

/-- Fuel-indexed record reader: each step consumes one 36-byte record
(u32 child id, then 32 name bytes) and stops at the first short read. The
fuel only bounds the number of records and is set from the stream length. -/
def readDirEntsAux : Nat → List Nat → List DirEnt
  | 0, _ => []
  | fuel + 1, bytes =>
    if 36 ≤ bytes.length then
      ⟨decodeU32 (bytes.take 4), (bytes.drop 4).take 32⟩ :: readDirEntsAux fuel (bytes.drop 36)
    else []

/-- The `fread` loop shared by `dir_find`, `cmd_ls`: repeatedly read a u32
and 32 name bytes; stop at the first short read. -/
def readDirEnts (bytes : List Nat) : List DirEnt :=
  readDirEntsAux bytes.length bytes

/-- The emulator's storage root: for each inode id, the byte content of its
backing stream, or `none` when that file does not exist. -/
def FS : Type := Nat → Option (List Nat)

/-- Overwrite (or create) the backing stream of inode `i`. -/
def updateFS (fs : FS) (i : Nat) (bytes : List Nat) : FS :=
  fun j => if j = i then some bytes else fs j

/-- `dir_find`: open the directory's stream (absent stream reads as not
found), scan entries in stream order, return the first whose raw 32 name
bytes equal the 32-byte encoding of the queried name. -/
def dir_find (fs : FS) (dir : Nat) (name : List Nat) : Option DirEnt :=
  match fs dir with
  | none => none
  | some bytes => (readDirEnts bytes).find? fun e => decide (e.name = make_name32 name)

/-- `dir_append`: open the directory stream in append mode (creating it when
absent) and write one encoded entry; `ok = false` models `fopen` failure,
returning `none` as the C function returns 0. -/
def dir_append (fs : FS) (dir child : Nat) (name : List Nat) (ok : Bool) : Option FS :=
  if ok then
    some (updateFS fs dir (((fs dir).getD []) ++ encodeDirEnt child (make_name32 name)))
  else none

/-- Source name of the `"."` self-link. -/
def dotName : List Nat := [46]

/-- Source name of the `".."` parent link. -/
def dotdotName : List Nat := [46, 46]

/-- The initial content `create_dir_inode` writes: the `(self, ".")` record
followed by the `(parent, "..")` record. -/
def dirInitBytes (new parent : Nat) : List Nat :=
  encodeDirEnt new (make_name32 dotName) ++ encodeDirEnt parent (make_name32 dotdotName)

/-- `create_dir_inode`: create (truncating) the new directory's stream and
write the two self-link entries; `ok = false` models `fopen` failure. -/
def create_dir_inode (fs : FS) (new parent : Nat) (ok : Bool) : Option FS :=
  if ok then some (updateFS fs new (dirInitBytes new parent)) else none

/-- Bytes strictly before the first zero byte: both the length computation in
`create_file_inode` and the `%s` display of a NUL-terminated copy in `cmd_ls`
keep exactly these bytes of a 32-byte buffer. -/
def trimName (bytes : List Nat) : List Nat :=
  bytes.takeWhile fun b => b != 0

/-- `create_file_inode`: create the file's stream holding the trimmed name
(the bytes of the 32-byte buffer before its first zero byte). -/
def create_file_inode (fs : FS) (new : Nat) (name : List Nat) (ok : Bool) : Option FS :=
  if ok then some (updateFS fs new (trimName (make_name32 name))) else none

/-- `cmd_ls`: `none` when the stream of `cwd` cannot be opened (diagnostic,
no listing); otherwise the printed lines, one `(inode id, trimmed name)`
pair per entry in stream order. -/
def cmd_ls (fs : FS) (cwd : Nat) : Option (List (Nat × List Nat)) :=
  match fs cwd with
  | none => none
  | some bytes => some ((readDirEnts bytes).map fun e => (e.inode, trimName e.name))

/-- `cmd_cd`: returns the new cwd together with the diagnostic printed, if
any. Not found keeps cwd with "no such directory"; a found entry whose inode
id is out of range, or whose slot is free or not a directory, keeps cwd with
"not a directory"; otherwise cwd becomes the entry's inode id. -/
def cmd_cd (t : InodeTable) (fs : FS) (cwd : Nat) (name : List Nat) :
    Nat × Option String :=
  match dir_find fs cwd name with
  | none => (cwd, some "cd: no such directory")
  | some ent =>
    if MAX_INODES ≤ ent.inode ∨ (t ent.inode).used = false ∨ (t ent.inode).type ≠ 'd' then
      (cwd, some "cd: not a directory")
    else (ent.inode, none)

/-- `cmd_mkdir`: duplicate name reports "already exists"; no free inode
reports "no free inodes"; otherwise the slot is marked used+'d', the
directory stream is created and the entry appended to `cwd`, and on failure
of either step only the `used` flag is rolled back, with no diagnostic.
Result: (table, storage root, stderr lines). -/
def cmd_mkdir (t : InodeTable) (fs : FS) (cwd : Nat) (name : List Nat)
    (createOk appendOk : Bool) : InodeTable × FS × List String :=
  if (dir_find fs cwd name).isSome then (t, fs, ["mkdir: already exists"])
  else
    match find_free_inode t with
    | none => (t, fs, ["mkdir: no free inodes"])
    | some i =>
      let t1 := updateTable t i ⟨true, 'd'⟩
      match create_dir_inode fs i cwd createOk with
      | none => (updateTable t1 i ⟨false, 'd'⟩, fs, [])
      | some fs1 =>
        match dir_append fs1 cwd i name appendOk with
        | none => (updateTable t1 i ⟨false, 'd'⟩, fs1, [])
        | some fs2 => (t1, fs2, [])

/-- `cmd_touch`: an existing name returns silently with no effect; no free
inode reports "no free inodes"; otherwise the slot is marked used+'f', the
file stream is created and the entry appended to `cwd`, and on failure of
either step only the `used` flag is rolled back, with no diagnostic. -/
def cmd_touch (t : InodeTable) (fs : FS) (cwd : Nat) (name : List Nat)
    (createOk appendOk : Bool) : InodeTable × FS × List String :=
  if (dir_find fs cwd name).isSome then (t, fs, [])
  else
    match find_free_inode t with
    | none => (t, fs, ["touch: no free inodes"])
    | some i =>
      let t1 := updateTable t i ⟨true, 'f'⟩
      match create_file_inode fs i name createOk with
      | none => (updateTable t1 i ⟨false, 'f'⟩, fs, [])
      | some fs1 =>
        match dir_append fs1 cwd i name appendOk with
        | none => (updateTable t1 i ⟨false, 'f'⟩, fs1, [])
        | some fs2 => (t1, fs2, [])

/-- One interactive command, with the write-open failure oracles of the
session environment attached to the commands that open streams for
writing. `ls` and `exit` never change the session state. -/
inductive Cmd where
  | ls : Cmd
  | cd (name : List Nat) : Cmd
  | mkdir (name : List Nat) (createOk appendOk : Bool) : Cmd
  | touch (name : List Nat) (createOk appendOk : Bool) : Cmd
  | exit : Cmd

/-- The mutable session state of `main`: the inode table, the storage root,
and the current directory cursor `cwd`. -/
structure State where
  t : InodeTable
  fs : FS
  cwd : Nat

/-- Effect of one dispatched command on the session state. -/
def step (s : State) (c : Cmd) : State :=
  match c with
  | .ls => s
  | .exit => s
  | .cd name => { s with cwd := (cmd_cd s.t s.fs s.cwd name).1 }
  | .mkdir name co ao =>
      let r := cmd_mkdir s.t s.fs s.cwd name co ao
      { t := r.1, fs := r.2.1, cwd := s.cwd }
  | .touch name co ao =>
      let r := cmd_touch s.t s.fs s.cwd name co ao
      { t := r.1, fs := r.2.1, cwd := s.cwd }

/-- The cwd invariant: the cursor is in range and its slot is a used
directory. -/
def cwdInv (s : State) : Prop :=
  s.cwd < MAX_INODES ∧ (s.t s.cwd).used = true ∧ (s.t s.cwd).type = 'd'

/-! ### Concrete states used to instantiate the theorems -/

/-- The startup table of the minimal scenario: only inode 0, a directory. -/
def rootTable : InodeTable := updateTable freshTable 0 ⟨true, 'd'⟩

/-- Storage root holding only an empty stream for the root directory. -/
def rootFS : FS := fun j => if j = 0 then some ([] : List Nat) else none

/-- Concrete one-byte source name "a". -/
def nameA : List Nat := [97]

/-- Concrete one-byte source name "b". -/
def nameB : List Nat := [98]

/-- Concrete one-byte source name "d". -/
def nameD : List Nat := [100]

/-- A concrete 40-byte source name (bytes 65..104, all nonzero). -/
def name40 : List Nat := List.range' 65 40

/-! ### Name-encoding and parsing lemmas -/

theorem make_name32_length (src : List Nat) : (make_name32 src).length = NAME_LEN := by
  simp only [make_name32, List.length_append, List.length_take, List.length_replicate]
  omega

theorem make_name32_of_long (src : List Nat) (h : NAME_LEN ≤ src.length) :
    make_name32 src = src.take NAME_LEN := by
  have h0 : NAME_LEN - src.length = 0 := by omega
  simp [make_name32, h0]

theorem make_name32_take (src : List Nat) :
    (make_name32 src).take (min NAME_LEN src.length) = src.take NAME_LEN := by
  unfold make_name32
  exact List.take_left' (by simp)

theorem make_name32_drop (src : List Nat) :
    (make_name32 src).drop (min NAME_LEN src.length)
      = List.replicate (NAME_LEN - src.length) 0 := by
  unfold make_name32
  exact List.drop_left' (by simp)

theorem dir_find_some {fs : FS} {d : Nat} {name : List Nat} {e : DirEnt}
    (h : dir_find fs d name = some e) : e.name = make_name32 name := by
  unfold dir_find at h
  cases hfs : fs d with
  | none => rw [hfs] at h; cases h
  | some bytes =>
    rw [hfs] at h
    simpa using List.find?_some h

/-- C7: the NameBuffer encoding is exactly 32 bytes — the first
`min 32 len` bytes are the (truncated) source bytes and the rest are zero
padding; a source of 32 bytes or more is silently truncated to its first
32 bytes (so no terminator remains at full capacity); directory search
compares all 32 raw bytes, so any found entry's stored name equals the
query's 32-byte encoding; concretely, a 40-byte name stored via `touch` is
found again by querying its first 32 bytes, which the encoding equals. -/
theorem c7_name32_encoding :
    (∀ src : List Nat, (make_name32 src).length = NAME_LEN)
    ∧ (∀ src : List Nat, NAME_LEN ≤ src.length → make_name32 src = src.take NAME_LEN)
    ∧ (∀ src : List Nat,
        (make_name32 src).take (min NAME_LEN src.length) = src.take NAME_LEN
        ∧ (make_name32 src).drop (min NAME_LEN src.length)
            = List.replicate (NAME_LEN - src.length) 0)
    ∧ (∀ (fs : FS) (d : Nat) (name : List Nat) (e : DirEnt),
        dir_find fs d name = some e → e.name = make_name32 name)
    ∧ (make_name32 name40 = name40.take 32
        ∧ (cmd_touch rootTable rootFS 0 name40 true true).2.2 = []
        ∧ dir_find (cmd_touch rootTable rootFS 0 name40 true true).2.1 0
            (name40.take 32) = some ⟨1, name40.take 32⟩) := by
  refine ⟨make_name32_length, make_name32_of_long,
    fun src => ⟨make_name32_take src, make_name32_drop src⟩,
    fun fs d name e h => dir_find_some h, by decide, by decide, by decide⟩

/-- Witness for C7 at a concrete input: the 40-byte name's encoding is its
first 32 bytes. -/
theorem c7_name32_encoding_witness :
    NAME_LEN ≤ name40.length ∧ make_name32 name40 = name40.take NAME_LEN :=
  ⟨by decide, c7_name32_encoding.2.1 name40 (by decide)⟩

/-- C2: `cd` is a three-way case split — name not found keeps cwd and
prints "no such directory"; a found entry with out-of-range inode id, a
free slot, or a non-directory type keeps cwd and prints "not a directory";
otherwise cwd becomes the found entry's inode id with no diagnostic. -/
theorem c2_cd_cases (t : InodeTable) (fs : FS) (cwd : Nat) (name : List Nat) :
    (dir_find fs cwd name = none →
      cmd_cd t fs cwd name = (cwd, some "cd: no such directory"))
    ∧ (∀ e : DirEnt, dir_find fs cwd name = some e →
        ((MAX_INODES ≤ e.inode ∨ (t e.inode).used = false ∨ (t e.inode).type ≠ 'd') →
          cmd_cd t fs cwd name = (cwd, some "cd: not a directory"))
        ∧ (e.inode < MAX_INODES → (t e.inode).used = true → (t e.inode).type = 'd' →
          cmd_cd t fs cwd name = (e.inode, none))) := by
  constructor
  · intro h
    simp [cmd_cd, h]
  · intro e he
    constructor
    · intro hbad
      simp [cmd_cd, he, hbad]
    · intro h1 h2 h3
      have hcond : ¬(MAX_INODES ≤ e.inode ∨ (t e.inode).used = false
          ∨ (t e.inode).type ≠ 'd') := by
        push_neg
        exact ⟨by omega, by simp [h2], h3⟩
      simp [cmd_cd, he, hcond]

/-- Witness for C2 at concrete inputs: at the root-only state, `cd a` hits
the not-found branch, and after `mkdir a` succeeds, `cd a` moves to the new
directory's inode id. -/
theorem c2_cd_cases_witness :
    cmd_cd rootTable rootFS 0 nameA = (0, some "cd: no such directory")
    ∧ cmd_cd (cmd_mkdir rootTable rootFS 0 nameA true true).1
        (cmd_mkdir rootTable rootFS 0 nameA true true).2.1 0 nameA = (1, none) := by
  constructor
  · exact (c2_cd_cases rootTable rootFS 0 nameA).1 (by decide)
  · exact (((c2_cd_cases (cmd_mkdir rootTable rootFS 0 nameA true true).1
      (cmd_mkdir rootTable rootFS 0 nameA true true).2.1 0 nameA).2
      ⟨1, make_name32 nameA⟩ (by decide)).2 (by decide) (by decide) (by decide))

/-! ### Stream parsing lemmas -/

theorem readDirEntsAux_fuel (fuel1 : Nat) :
    ∀ (fuel2 : Nat) (bytes : List Nat), bytes.length ≤ fuel1 → bytes.length ≤ fuel2 →
      readDirEntsAux fuel1 bytes = readDirEntsAux fuel2 bytes := by
  induction fuel1 with
  | zero =>
    intro fuel2 bytes h1 h2
    cases fuel2 with
    | zero => rfl
    | succ k =>
      simp only [readDirEntsAux]
      rw [if_neg (by omega)]
  | succ f ih =>
    intro fuel2 bytes h1 h2
    cases fuel2 with
    | zero =>
      simp only [readDirEntsAux]
      rw [if_neg (by omega)]
    | succ k =>
      simp only [readDirEntsAux]
      by_cases hb : 36 ≤ bytes.length
      · rw [if_pos hb, if_pos hb]
        have hd : (bytes.drop 36).length = bytes.length - 36 := List.length_drop 36 bytes
        rw [ih k (bytes.drop 36) (by omega) (by omega)]
      · rw [if_neg hb, if_neg hb]

theorem readDirEnts_record (child : Nat) (name32 rest : List Nat)
    (hc : child < 4294967296) (hn : name32.length = 32) :
    readDirEnts (encodeDirEnt child name32 ++ rest)
      = ⟨child, name32⟩ :: readDirEnts rest := by
  have hlen4 : (encodeU32 child).length = 4 := by simp [encodeU32]
  have hlen : (encodeDirEnt child name32 ++ rest).length = 36 + rest.length := by
    simp [encodeDirEnt, encodeU32, hn]
    omega
  have hassoc : encodeDirEnt child name32 ++ rest
      = encodeU32 child ++ (name32 ++ rest) := by
    simp [encodeDirEnt]
  have htake4 : (encodeDirEnt child name32 ++ rest).take 4 = encodeU32 child := by
    rw [hassoc]; exact List.take_left' hlen4
  have hdrop4 : (encodeDirEnt child name32 ++ rest).drop 4 = name32 ++ rest := by
    rw [hassoc]; exact List.drop_left' hlen4
  have htake32 : (name32 ++ rest).take 32 = name32 := List.take_left' hn
  have hdrop36 : (encodeDirEnt child name32 ++ rest).drop 36 = rest :=
    List.drop_left' (by simp [encodeDirEnt, encodeU32, hn])
  have hdec : decodeU32 (encodeU32 child) = child := by
    simp [encodeU32, decodeU32, List.getD]
    omega
  unfold readDirEnts
  rw [hlen]
  have : 36 + rest.length = (35 + rest.length) + 1 := by omega
  rw [this]
  simp only [readDirEntsAux]
  rw [if_pos (by rw [hlen]; omega)]
  rw [htake4, hdec, hdrop4, htake32, hdrop36]
  rw [readDirEntsAux_fuel (35 + rest.length) rest.length rest (by omega) (by omega)]

/-- Byte serialization of a whole entry list, as written record by record. -/
def encodeEnts (es : List DirEnt) : List Nat :=
  (es.map fun e => encodeDirEnt e.inode e.name).flatten

/-- Well-formed entry list: ids fit in a u32 and names are full 32-byte
buffers — true of everything the emulator itself writes. -/
def ValidEnts (es : List DirEnt) : Prop :=
  ∀ e ∈ es, e.inode < 4294967296 ∧ e.name.length = 32

theorem readDirEnts_encodeEnts (es : List DirEnt) (h : ValidEnts es) :
    readDirEnts (encodeEnts es) = es := by
  induction es with
  | nil => rfl
  | cons e es ih =>
    have he := h e (by simp)
    have hes : ValidEnts es := fun x hx => h x (by simp [hx])
    have htail : readDirEnts (encodeEnts es) = es := ih hes
    simp only [encodeEnts] at htail
    simp only [encodeEnts, List.map_cons, List.flatten_cons]
    rw [readDirEnts_record e.inode e.name _ he.1 he.2, htail]

theorem encodeEnts_append (es1 es2 : List DirEnt) :
    encodeEnts (es1 ++ es2) = encodeEnts es1 ++ encodeEnts es2 := by
  simp [encodeEnts]

theorem dir_find_wf {fs : FS} {d : Nat} (name : List Nat) {es : List DirEnt}
    (hfs : fs d = some (encodeEnts es)) (h : ValidEnts es) :
    dir_find fs d name
      = es.find? fun e => decide (e.name = make_name32 name) := by
  unfold dir_find
  rw [hfs]
  dsimp only
  rw [readDirEnts_encodeEnts es h]

/-! ### The linear-scan allocator -/

theorem find?_range'_eq_some (p : Nat → Bool) :
    ∀ (n s i : Nat), ((List.range' s n).find? p = some i ↔
      (s ≤ i ∧ i < s + n ∧ p i = true ∧ ∀ j, s ≤ j → j < i → p j = false)) := by
  intro n
  induction n with
  | zero =>
    intro s i
    simp only [List.range', List.find?_nil]
    constructor
    · intro h; cases h
    · intro ⟨h1, h2, _⟩; omega
  | succ m ih =>
    intro s i
    rw [List.range'_succ, List.find?_cons]
    by_cases hs : p s = true
    · rw [hs]
      constructor
      · intro h
        cases h
        exact ⟨Nat.le_refl s, by omega, hs, fun j hj1 hj2 => by omega⟩
      · intro ⟨h1, h2, h3, h4⟩
        by_cases hi : i = s
        · rw [hi]
        · exact absurd hs (by simp [h4 s (Nat.le_refl s) (by omega)])
    · simp only [Bool.not_eq_true] at hs
      rw [hs, ih (s + 1) i]
      constructor
      · intro ⟨h1, h2, h3, h4⟩
        refine ⟨by omega, by omega, h3, fun j hj1 hj2 => ?_⟩
        by_cases hjs : j = s
        · rw [hjs]; exact hs
        · exact h4 j (by omega) hj2
      · intro ⟨h1, h2, h3, h4⟩
        have hi : i ≠ s := fun hc => by rw [hc] at h3; rw [h3] at hs; cases hs
        exact ⟨by omega, by omega, h3, fun j hj1 hj2 => h4 j (by omega) hj2⟩

theorem find_free_inode_eq_some (t : InodeTable) (i : Nat) :
    find_free_inode t = some i ↔
      (i < MAX_INODES ∧ (t i).used = false ∧ ∀ j, j < i → (t j).used = true) := by
  unfold find_free_inode
  rw [List.range_eq_range', find?_range'_eq_some]
  constructor
  · intro ⟨_, h2, h3, h4⟩
    refine ⟨by omega, by simpa using h3, fun j hj => ?_⟩
    have := h4 j (by omega) hj
    simpa using this
  · intro ⟨h1, h2, h3⟩
    refine ⟨by omega, by omega, by simpa using h2, fun j _ hj => ?_⟩
    simpa using h3 j hj

theorem find_free_inode_free {t : InodeTable} {i : Nat}
    (h : find_free_inode t = some i) : (t i).used = false := by
  have := List.find?_some h
  simpa using this

theorem find_free_inode_lt {t : InodeTable} {i : Nat}
    (h : find_free_inode t = some i) : i < MAX_INODES := by
  have := List.mem_of_find?_eq_some h
  simpa [List.mem_range] using this

theorem find_free_inode_eq_none (t : InodeTable)
    (h : ∀ i, i < MAX_INODES → (t i).used = true) : find_free_inode t = none := by
  unfold find_free_inode
  rw [List.find?_eq_none]
  intro x hx
  simp [h x (by simpa [List.mem_range] using hx)]

/-- C8: free-inode allocation is the linear scan from index 0 — it returns
`some i` exactly when `i` is the first free slot, and `none` when all 1024
slots are used; with every slot occupied, `mkdir` of a fresh name fails
with "no free inodes" and returns the table (hence its used slots)
unchanged. -/
theorem c8_find_free_scan (t : InodeTable) :
    (∀ i : Nat, find_free_inode t = some i ↔
      (i < MAX_INODES ∧ (t i).used = false ∧ ∀ j, j < i → (t j).used = true))
    ∧ ((∀ i, i < MAX_INODES → (t i).used = true) → find_free_inode t = none)
    ∧ (∀ (fs : FS) (cwd : Nat) (name : List Nat) (co ao : Bool),
        (∀ i, i < MAX_INODES → (t i).used = true) →
        dir_find fs cwd name = none →
        cmd_mkdir t fs cwd name co ao = (t, fs, ["mkdir: no free inodes"])) := by
  refine ⟨find_free_inode_eq_some t, find_free_inode_eq_none t, ?_⟩
  intro fs cwd name co ao hall hnf
  unfold cmd_mkdir
  rw [hnf]
  simp only [Option.isSome_none, Bool.false_eq_true, if_false]
  rw [find_free_inode_eq_none t hall]

/-- Witness for C8: a fully occupied table plus an empty storage root make
`mkdir a` fail with "no free inodes" and change nothing. -/
theorem c8_find_free_scan_witness :
    cmd_mkdir (fun _ => ⟨true, 'd'⟩) (fun _ => none) 0 nameA true true
      = ((fun _ => ⟨true, 'd'⟩ : InodeTable), (fun _ => none : FS),
          ["mkdir: no free inodes"]) :=
  (c8_find_free_scan (fun _ => ⟨true, 'd'⟩)).2.2 (fun _ => none) 0 nameA true true
    (by intro i _; rfl) (by rfl)

/-! ### Pointwise update lemmas and command branch characterizations -/

theorem updateTable_same (t : InodeTable) (i : Nat) (v : InodeInfo) :
    updateTable t i v i = v := by
  simp [updateTable]

theorem updateTable_other (t : InodeTable) (i j : Nat) (v : InodeInfo) (h : j ≠ i) :
    updateTable t i v j = t j := by
  simp [updateTable, h]

theorem updateTable_updateTable (t : InodeTable) (i : Nat) (v w : InodeInfo) :
    updateTable (updateTable t i v) i w = updateTable t i w := by
  funext j
  by_cases h : j = i <;> simp [updateTable, h]

theorem updateFS_other (fs : FS) (i j : Nat) (bytes : List Nat) (h : j ≠ i) :
    updateFS fs i bytes j = fs j := by
  simp [updateFS, h]

theorem updateFS_same (fs : FS) (i : Nat) (bytes : List Nat) :
    updateFS fs i bytes i = some bytes := by
  simp [updateFS]

theorem cmd_mkdir_dup (t : InodeTable) (fs : FS) (cwd : Nat) (name : List Nat)
    (co ao : Bool) (h : (dir_find fs cwd name).isSome = true) :
    cmd_mkdir t fs cwd name co ao = (t, fs, ["mkdir: already exists"]) := by
  unfold cmd_mkdir
  rw [if_pos h]

theorem cmd_mkdir_nofree (t : InodeTable) (fs : FS) (cwd : Nat) (name : List Nat)
    (co ao : Bool) (h1 : dir_find fs cwd name = none) (h2 : find_free_inode t = none) :
    cmd_mkdir t fs cwd name co ao = (t, fs, ["mkdir: no free inodes"]) := by
  unfold cmd_mkdir
  rw [h1, h2]
  simp

theorem cmd_mkdir_createFail (t : InodeTable) (fs : FS) (cwd : Nat) (name : List Nat)
    (ao : Bool) (i : Nat)
    (h1 : dir_find fs cwd name = none) (h2 : find_free_inode t = some i) :
    cmd_mkdir t fs cwd name false ao = (updateTable t i ⟨false, 'd'⟩, fs, []) := by
  unfold cmd_mkdir
  rw [h1, h2]
  simp [create_dir_inode, updateTable_updateTable]

theorem cmd_mkdir_appendFail (t : InodeTable) (fs : FS) (cwd : Nat) (name : List Nat)
    (i : Nat) (h1 : dir_find fs cwd name = none) (h2 : find_free_inode t = some i) :
    cmd_mkdir t fs cwd name true false
      = (updateTable t i ⟨false, 'd'⟩, updateFS fs i (dirInitBytes i cwd), []) := by
  unfold cmd_mkdir
  rw [h1, h2]
  simp [create_dir_inode, dir_append, updateTable_updateTable]

theorem cmd_mkdir_success (t : InodeTable) (fs : FS) (cwd : Nat) (name : List Nat)
    (i : Nat) (h1 : dir_find fs cwd name = none) (h2 : find_free_inode t = some i) :
    cmd_mkdir t fs cwd name true true
      = (updateTable t i ⟨true, 'd'⟩,
         updateFS (updateFS fs i (dirInitBytes i cwd)) cwd
           ((updateFS fs i (dirInitBytes i cwd) cwd).getD []
             ++ encodeDirEnt i (make_name32 name)),
         []) := by
  unfold cmd_mkdir
  rw [h1, h2]
  simp [create_dir_inode, dir_append]

theorem cmd_touch_dup (t : InodeTable) (fs : FS) (cwd : Nat) (name : List Nat)
    (co ao : Bool) (h : (dir_find fs cwd name).isSome = true) :
    cmd_touch t fs cwd name co ao = (t, fs, []) := by
  unfold cmd_touch
  rw [if_pos h]

theorem cmd_touch_nofree (t : InodeTable) (fs : FS) (cwd : Nat) (name : List Nat)
    (co ao : Bool) (h1 : dir_find fs cwd name = none) (h2 : find_free_inode t = none) :
    cmd_touch t fs cwd name co ao = (t, fs, ["touch: no free inodes"]) := by
  unfold cmd_touch
  rw [h1, h2]
  simp

theorem cmd_touch_createFail (t : InodeTable) (fs : FS) (cwd : Nat) (name : List Nat)
    (ao : Bool) (i : Nat)
    (h1 : dir_find fs cwd name = none) (h2 : find_free_inode t = some i) :
    cmd_touch t fs cwd name false ao = (updateTable t i ⟨false, 'f'⟩, fs, []) := by
  unfold cmd_touch
  rw [h1, h2]
  simp [create_file_inode, updateTable_updateTable]

theorem cmd_touch_appendFail (t : InodeTable) (fs : FS) (cwd : Nat) (name : List Nat)
    (i : Nat) (h1 : dir_find fs cwd name = none) (h2 : find_free_inode t = some i) :
    cmd_touch t fs cwd name true false
      = (updateTable t i ⟨false, 'f'⟩,
         updateFS fs i (trimName (make_name32 name)), []) := by
  unfold cmd_touch
  rw [h1, h2]
  simp [create_file_inode, dir_append, updateTable_updateTable]

theorem cmd_touch_success (t : InodeTable) (fs : FS) (cwd : Nat) (name : List Nat)
    (i : Nat) (h1 : dir_find fs cwd name = none) (h2 : find_free_inode t = some i) :
    cmd_touch t fs cwd name true true
      = (updateTable t i ⟨true, 'f'⟩,
         updateFS (updateFS fs i (trimName (make_name32 name))) cwd
           ((updateFS fs i (trimName (make_name32 name)) cwd).getD []
             ++ encodeDirEnt i (make_name32 name)),
         []) := by
  unfold cmd_touch
  rw [h1, h2]
  simp [create_file_inode, dir_append]

theorem cmd_mkdir_preserves_used (t : InodeTable) (fs : FS) (cwd : Nat)
    (name : List Nat) (co ao : Bool) (j : Nat) (hj : (t j).used = true) :
    (cmd_mkdir t fs cwd name co ao).1 j = t j := by
  by_cases hdup : (dir_find fs cwd name).isSome = true
  · rw [cmd_mkdir_dup t fs cwd name co ao hdup]
  · have h1 : dir_find fs cwd name = none := by
      cases h : dir_find fs cwd name
      · rfl
      · rw [h] at hdup; simp at hdup
    cases h2 : find_free_inode t with
    | none => rw [cmd_mkdir_nofree t fs cwd name co ao h1 h2]
    | some i =>
      have hij : j ≠ i := fun hc => by
        rw [hc] at hj
        rw [find_free_inode_free h2] at hj
        cases hj
      cases co
      · rw [cmd_mkdir_createFail t fs cwd name ao i h1 h2]
        exact updateTable_other t i j _ hij
      · cases ao
        · rw [cmd_mkdir_appendFail t fs cwd name i h1 h2]
          exact updateTable_other t i j _ hij
        · rw [cmd_mkdir_success t fs cwd name i h1 h2]
          exact updateTable_other t i j _ hij

theorem cmd_touch_preserves_used (t : InodeTable) (fs : FS) (cwd : Nat)
    (name : List Nat) (co ao : Bool) (j : Nat) (hj : (t j).used = true) :
    (cmd_touch t fs cwd name co ao).1 j = t j := by
  by_cases hdup : (dir_find fs cwd name).isSome = true
  · rw [cmd_touch_dup t fs cwd name co ao hdup]
  · have h1 : dir_find fs cwd name = none := by
      cases h : dir_find fs cwd name
      · rfl
      · rw [h] at hdup; simp at hdup
    cases h2 : find_free_inode t with
    | none => rw [cmd_touch_nofree t fs cwd name co ao h1 h2]
    | some i =>
      have hij : j ≠ i := fun hc => by
        rw [hc] at hj
        rw [find_free_inode_free h2] at hj
        cases hj
      cases co
      · rw [cmd_touch_createFail t fs cwd name ao i h1 h2]
        exact updateTable_other t i j _ hij
      · cases ao
        · rw [cmd_touch_appendFail t fs cwd name i h1 h2]
          exact updateTable_other t i j _ hij
        · rw [cmd_touch_success t fs cwd name i h1 h2]
          exact updateTable_other t i j _ hij

/-- C5: when `mkdir` or `touch` allocates a slot and then the backing-stream
creation or the parent append fails, the slot's `used` flag is rolled back
to free before the command returns — the table's used flags are exactly
those before the command, so no used slot survives a failed creation — and
when the creation step itself fails nothing is appended to the parent: the
storage root is left untouched. -/
theorem c5_creation_rollback (t : InodeTable) (fs : FS) (cwd : Nat)
    (name : List Nat) (i : Nat) (co ao : Bool)
    (hnf : dir_find fs cwd name = none) (hfree : find_free_inode t = some i)
    (hfail : co = false ∨ ao = false) :
    (((cmd_mkdir t fs cwd name co ao).1 i).used = false
      ∧ ∀ j, ((cmd_mkdir t fs cwd name co ao).1 j).used = (t j).used)
    ∧ (((cmd_touch t fs cwd name co ao).1 i).used = false
      ∧ ∀ j, ((cmd_touch t fs cwd name co ao).1 j).used = (t j).used)
    ∧ (co = false →
        (cmd_mkdir t fs cwd name co ao).2.1 = fs
        ∧ (cmd_touch t fs cwd name co ao).2.1 = fs) := by
  have hifree : (t i).used = false := find_free_inode_free hfree
  have hflags : ∀ ty : Char, ∀ j, ((updateTable t i ⟨false, ty⟩) j).used = (t j).used := by
    intro ty j
    by_cases hij : j = i
    · rw [hij, updateTable_same, hifree]
    · rw [updateTable_other t i j _ hij]
  have hzero : ∀ ty : Char, ((updateTable t i ⟨false, ty⟩) i).used = false := by
    intro ty
    rw [updateTable_same]
  cases co with
  | false =>
    rw [cmd_mkdir_createFail t fs cwd name ao i hnf hfree,
        cmd_touch_createFail t fs cwd name ao i hnf hfree]
    exact ⟨⟨hzero 'd', hflags 'd'⟩, ⟨hzero 'f', hflags 'f'⟩,
      fun _ => ⟨rfl, rfl⟩⟩
  | true =>
    cases ao with
    | false =>
      rw [cmd_mkdir_appendFail t fs cwd name i hnf hfree,
          cmd_touch_appendFail t fs cwd name i hnf hfree]
      exact ⟨⟨hzero 'd', hflags 'd'⟩, ⟨hzero 'f', hflags 'f'⟩,
        fun hc => by cases hc⟩
    | true => cases hfail with
      | inl h => cases h
      | inr h => cases h

/-- Witness for C5: at the root-only state with a failing stream creation,
`mkdir a` frees slot 1 again and leaves the storage root untouched. -/
theorem c5_creation_rollback_witness :
    ((cmd_mkdir rootTable rootFS 0 nameA false true).1 1).used = false
    ∧ (cmd_mkdir rootTable rootFS 0 nameA false true).2.1 = rootFS := by
  have h := c5_creation_rollback rootTable rootFS 0 nameA 1 false true
    (by decide) (by decide) (Or.inl rfl)
  exact ⟨h.1.1, (h.2.2 rfl).1⟩

/-- C6 counterexample: a stream-creation failure during `mkdir` prints no
diagnostic at all, and an append failure (after a successful stream
creation) both prints nothing and leaves the freshly created backing
stream of inode 1 behind — the state is not "exactly as it was". -/
theorem c6_counterexample :
    (cmd_mkdir rootTable rootFS 0 nameA false true).2.2 = ([] : List String)
    ∧ (cmd_mkdir rootTable rootFS 0 nameA true false).2.2 = ([] : List String)
    ∧ (cmd_mkdir rootTable rootFS 0 nameA true false).2.1 1 ≠ rootFS 1 := by
  refine ⟨by decide, by decide, by decide⟩

/-- C6, amended: the recoverable failures with a diagnostic — `cd` not
found, `cd` target not a used directory, duplicate-name `mkdir`, and inode
exhaustion in `mkdir`/`touch` — print a short diagnostic and return the
table, storage root, and cwd exactly as they were; but a backing-stream
creation or append failure in `mkdir` or `touch` prints nothing and rolls
back only the allocated slot's `used` flag: a creation-step failure leaves
the storage root untouched, while an append-step failure leaves the newly
created backing stream of the allocated inode in the storage root. -/
theorem c6_amended (t : InodeTable) (fs : FS) (cwd : Nat) (name : List Nat)
    (i : Nat) (hnf : dir_find fs cwd name = none)
    (hfree : find_free_inode t = some i) :
    (cmd_cd t fs cwd name = (cwd, some "cd: no such directory")
      ∧ (∀ (fs' : FS) (nm : List Nat) (e : DirEnt), dir_find fs' cwd nm = some e →
          (MAX_INODES ≤ e.inode ∨ (t e.inode).used = false ∨ (t e.inode).type ≠ 'd') →
          cmd_cd t fs' cwd nm = (cwd, some "cd: not a directory"))
      ∧ (∀ (fs' : FS) (co ao : Bool), (dir_find fs' cwd name).isSome = true →
          cmd_mkdir t fs' cwd name co ao = (t, fs', ["mkdir: already exists"]))
      ∧ (∀ (t' : InodeTable) (co ao : Bool), find_free_inode t' = none →
          cmd_mkdir t' fs cwd name co ao = (t', fs, ["mkdir: no free inodes"])
          ∧ cmd_touch t' fs cwd name co ao = (t', fs, ["touch: no free inodes"])))
    ∧ (∀ ao : Bool,
        cmd_mkdir t fs cwd name false ao = (updateTable t i ⟨false, 'd'⟩, fs, [])
        ∧ cmd_touch t fs cwd name false ao = (updateTable t i ⟨false, 'f'⟩, fs, []))
    ∧ (cmd_mkdir t fs cwd name true false
          = (updateTable t i ⟨false, 'd'⟩, updateFS fs i (dirInitBytes i cwd), [])
        ∧ cmd_touch t fs cwd name true false
          = (updateTable t i ⟨false, 'f'⟩,
              updateFS fs i (trimName (make_name32 name)), [])
        ∧ updateFS fs i (dirInitBytes i cwd) i = some (dirInitBytes i cwd)
        ∧ updateFS fs i (trimName (make_name32 name)) i
            = some (trimName (make_name32 name)))
    ∧ (∀ ty : Char, ∀ j, ((updateTable t i ⟨false, ty⟩) j).used = (t j).used) := by
  have hflags : ∀ ty : Char, ∀ j,
      ((updateTable t i ⟨false, ty⟩) j).used = (t j).used := by
    intro ty j
    by_cases hij : j = i
    · rw [hij, updateTable_same, find_free_inode_free hfree]
    · rw [updateTable_other t i j _ hij]
  refine ⟨⟨?_, ?_, ?_, ?_⟩, ?_, ⟨?_, ?_, ?_, ?_⟩, hflags⟩
  · simp [cmd_cd, hnf]
  · intro fs' nm e he hbad
    simp [cmd_cd, he, hbad]
  · intro fs' co ao h
    exact cmd_mkdir_dup t fs' cwd name co ao h
  · intro t' co ao h
    exact ⟨cmd_mkdir_nofree t' fs cwd name co ao hnf h,
      cmd_touch_nofree t' fs cwd name co ao hnf h⟩
  · intro ao
    exact ⟨cmd_mkdir_createFail t fs cwd name ao i hnf hfree,
      cmd_touch_createFail t fs cwd name ao i hnf hfree⟩
  · exact cmd_mkdir_appendFail t fs cwd name i hnf hfree
  · exact cmd_touch_appendFail t fs cwd name i hnf hfree
  · exact updateFS_same fs i _
  · exact updateFS_same fs i _

/-- Witness for the amended C6 at the root-only state: the `cd` diagnostic,
a silent touch creation failure, and a silent mkdir append failure whose
created stream survives. -/
theorem c6_amended_witness :
    cmd_cd rootTable rootFS 0 nameA = (0, some "cd: no such directory")
    ∧ cmd_touch rootTable rootFS 0 nameA false true
        = (updateTable rootTable 1 ⟨false, 'f'⟩, rootFS, [])
    ∧ cmd_mkdir rootTable rootFS 0 nameA true false
        = (updateTable rootTable 1 ⟨false, 'd'⟩,
            updateFS rootFS 1 (dirInitBytes 1 0), []) := by
  have h := c6_amended rootTable rootFS 0 nameA 1 (by decide) (by decide)
  exact ⟨h.1.1, (h.2.1 true).2, h.2.2.1.1⟩

/-- C9: the cwd invariant — cwd is an in-range index whose slot is a used
directory — holds at startup (after the fatal root check, with cwd = 0)
and is preserved by every command: `cd` rewrites cwd only after checking
the target is an in-range used directory, and `mkdir`/`touch` never touch
the slot of a used inode. -/
theorem c9_cwd_invariant :
    (∀ (t : InodeTable) (fs : FS), (t 0).used = true → (t 0).type = 'd' →
      cwdInv ⟨t, fs, 0⟩)
    ∧ (∀ (s : State) (c : Cmd), cwdInv s → cwdInv (step s c)) := by
  constructor
  · intro t fs h1 h2
    exact ⟨by norm_num [MAX_INODES], h1, h2⟩
  · intro s c hinv
    obtain ⟨hlt, hused, htype⟩ := hinv
    cases c with
    | ls => exact ⟨hlt, hused, htype⟩
    | exit => exact ⟨hlt, hused, htype⟩
    | cd name =>
      refine ⟨?_, ?_, ?_⟩ <;>
      · simp only [step, cmd_cd]
        cases hf : dir_find s.fs s.cwd name with
        | none => first | exact hlt | exact hused | exact htype
        | some e =>
          dsimp only
          by_cases hcond : MAX_INODES ≤ e.inode ∨ (s.t e.inode).used = false
              ∨ (s.t e.inode).type ≠ 'd'
          · rw [if_pos hcond]
            first | exact hlt | exact hused | exact htype
          · rw [if_neg hcond]
            push_neg at hcond
            first
              | exact (by omega : e.inode < MAX_INODES)
              | exact (by simpa using hcond.2.1)
              | exact hcond.2.2
    | mkdir name co ao =>
      have hpres := cmd_mkdir_preserves_used s.t s.fs s.cwd name co ao s.cwd hused
      exact ⟨hlt, by simp only [step]; rw [hpres]; exact hused,
        by simp only [step]; rw [hpres]; exact htype⟩
    | touch name co ao =>
      have hpres := cmd_touch_preserves_used s.t s.fs s.cwd name co ao s.cwd hused
      exact ⟨hlt, by simp only [step]; rw [hpres]; exact hused,
        by simp only [step]; rw [hpres]; exact htype⟩

/-- Witness for C9: the startup state of the minimal scenario satisfies the
invariant, and stepping it through `mkdir a` preserves it. -/
theorem c9_cwd_invariant_witness :
    cwdInv ⟨rootTable, rootFS, 0⟩
    ∧ cwdInv (step ⟨rootTable, rootFS, 0⟩ (Cmd.mkdir nameA true true)) := by
  have h0 : cwdInv ⟨rootTable, rootFS, 0⟩ :=
    c9_cwd_invariant.1 rootTable rootFS (by decide) (by decide)
  exact ⟨h0, c9_cwd_invariant.2 ⟨rootTable, rootFS, 0⟩ (Cmd.mkdir nameA true true) h0⟩

/-! ### Effect of a successful creation on the parent stream -/

theorem touch_success_stream (t : InodeTable) (fs : FS) (cwd : Nat)
    (name : List Nat) (i : Nat) (es : List DirEnt)
    (hfs : fs cwd = some (encodeEnts es)) (hv : ValidEnts es)
    (hnf : dir_find fs cwd name = none) (hfree : find_free_inode t = some i)
    (hcwd : (t cwd).used = true) :
    (cmd_touch t fs cwd name true true).2.1 cwd
      = some (encodeEnts (es ++ [⟨i, make_name32 name⟩]))
    ∧ ValidEnts (es ++ [⟨i, make_name32 name⟩])
    ∧ readDirEnts (encodeEnts (es ++ [⟨i, make_name32 name⟩]))
        = es ++ [⟨i, make_name32 name⟩]
    ∧ es.find? (fun e => decide (e.name = make_name32 name)) = none := by
  have hicwd : i ≠ cwd := fun hc => by
    rw [hc] at hfree
    rw [find_free_inode_free hfree] at hcwd
    cases hcwd
  have hvnew : ValidEnts (es ++ [⟨i, make_name32 name⟩]) := by
    intro e he
    rcases List.mem_append.1 he with h | h
    · exact hv e h
    · simp only [List.mem_singleton] at h
      rw [h]
      refine ⟨?_, make_name32_length name⟩
      show i < 4294967296
      have := find_free_inode_lt hfree
      simp only [MAX_INODES] at this
      omega
  have hcwdstream : updateFS fs i (trimName (make_name32 name)) cwd = fs cwd :=
    updateFS_other fs i cwd _ (Ne.symm hicwd)
  constructor
  · rw [cmd_touch_success t fs cwd name i hnf hfree]
    show updateFS _ cwd _ cwd = _
    rw [updateFS_same]
    rw [hcwdstream, hfs]
    simp only [Option.getD_some]
    rw [encodeEnts_append]
    simp [encodeEnts, encodeDirEnt]
  · refine ⟨hvnew, readDirEnts_encodeEnts _ hvnew, ?_⟩
    rw [dir_find_wf name hfs hv] at hnf
    exact hnf

/-- C3: a successful `mkdir` of a fresh name initializes the new directory's
backing stream with exactly the two entries `(self, ".")` and
`(parent, "..")`, in that order; concretely, `mkdir d` from the root-only
state followed by `cd d` and `ls` lists exactly `(1, ".")` and `(0, "..")`. -/
theorem c3_mkdir_selflinks (t : InodeTable) (fs : FS) (cwd : Nat)
    (name : List Nat) (i : Nat)
    (hnf : dir_find fs cwd name = none) (hfree : find_free_inode t = some i)
    (hcwd : (t cwd).used = true) (hcwdlt : cwd < MAX_INODES) :
    ((cmd_mkdir t fs cwd name true true).2.1 i = some (dirInitBytes i cwd)
      ∧ readDirEnts (dirInitBytes i cwd)
          = [⟨i, make_name32 dotName⟩, ⟨cwd, make_name32 dotdotName⟩])
    ∧ ((step (step ⟨rootTable, rootFS, 0⟩ (Cmd.mkdir nameD true true))
          (Cmd.cd nameD)).cwd = 1
        ∧ cmd_ls (step (step ⟨rootTable, rootFS, 0⟩ (Cmd.mkdir nameD true true))
            (Cmd.cd nameD)).fs 1
          = some [(1, dotName), (0, dotdotName)]) := by
  have hicwd : i ≠ cwd := fun hc => by
    rw [hc] at hfree
    rw [find_free_inode_free hfree] at hcwd
    cases hcwd
  have hilt : i < MAX_INODES := find_free_inode_lt hfree
  refine ⟨⟨?_, ?_⟩, by decide, by decide⟩
  · rw [cmd_mkdir_success t fs cwd name i hnf hfree]
    show updateFS _ cwd _ i = _
    rw [updateFS_other _ cwd i _ hicwd]
    simp [updateFS]
  · unfold dirInitBytes
    rw [readDirEnts_record i (make_name32 dotName) _
        (by simp only [MAX_INODES] at hilt; omega) (make_name32_length dotName)]
    rw [show encodeDirEnt cwd (make_name32 dotdotName)
        = encodeDirEnt cwd (make_name32 dotdotName) ++ [] from (List.append_nil _).symm]
    rw [readDirEnts_record cwd (make_name32 dotdotName) []
        (by simp only [MAX_INODES] at hcwdlt; omega) (make_name32_length dotdotName)]
    rfl

/-- Witness for C3 at concrete inputs: `mkdir d` at the root-only state
writes the two self-link entries into inode 1's stream. -/
theorem c3_mkdir_selflinks_witness :
    (cmd_mkdir rootTable rootFS 0 nameD true true).2.1 1 = some (dirInitBytes 1 0)
    ∧ readDirEnts (dirInitBytes 1 0)
        = [⟨1, make_name32 dotName⟩, ⟨0, make_name32 dotdotName⟩] :=
  (c3_mkdir_selflinks rootTable rootFS 0 nameD 1
    (by decide) (by decide) (by decide) (by decide)).1

/-- C4: `touch` of an existing name is a silent no-op — same table, same
storage root, no diagnostic; and after a successful `touch` of a fresh name
into a well-formed directory, the directory holds exactly one entry with
that name's encoding, and a second `touch` of the same name changes
nothing, so `touch f` twice leaves exactly one entry named `f`. -/
theorem c4_touch_idempotent :
    (∀ (t : InodeTable) (fs : FS) (cwd : Nat) (name : List Nat) (co ao : Bool),
      (dir_find fs cwd name).isSome = true →
      cmd_touch t fs cwd name co ao = (t, fs, []))
    ∧ (∀ (t : InodeTable) (fs : FS) (cwd : Nat) (name : List Nat) (i : Nat)
        (es : List DirEnt),
        fs cwd = some (encodeEnts es) → ValidEnts es →
        dir_find fs cwd name = none → find_free_inode t = some i →
        (t cwd).used = true →
        ((readDirEnts (((cmd_touch t fs cwd name true true).2.1 cwd).getD [])).filter
            (fun e => decide (e.name = make_name32 name))).length = 1
        ∧ ∀ (t' : InodeTable) (co ao : Bool),
            cmd_touch t' (cmd_touch t fs cwd name true true).2.1 cwd name co ao
              = (t', (cmd_touch t fs cwd name true true).2.1, [])) := by
  constructor
  · intro t fs cwd name co ao h
    exact cmd_touch_dup t fs cwd name co ao h
  · intro t fs cwd name i es hfs hv hnf hfree hcwd
    obtain ⟨hstream, hvnew, hread, hfind⟩ :=
      touch_success_stream t fs cwd name i es hfs hv hnf hfree hcwd
    have hes : ∀ e ∈ es, ¬(e.name = make_name32 name) := by
      intro e he
      have := List.find?_eq_none.1 hfind e he
      simpa using this
    constructor
    · rw [hstream]
      simp only [Option.getD_some]
      rw [hread, List.filter_append]
      have h1 : es.filter (fun e => decide (e.name = make_name32 name)) = [] :=
        List.filter_eq_nil_iff.2 (by intro a ha; simpa using hes a ha)
      rw [h1]
      simp
    · intro t' co ao
      apply cmd_touch_dup
      rw [dir_find_wf name hstream hvnew]
      rw [List.find?_append, hfind]
      simp

/-- Witness for C4 at concrete inputs: from the root-only state, `touch b`
twice leaves exactly one entry whose stored name is the encoding of `b`. -/
theorem c4_touch_idempotent_witness :
    ((readDirEnts (((cmd_touch rootTable rootFS 0 nameB true true).2.1 0).getD [])).filter
        (fun e => decide (e.name = make_name32 nameB))).length = 1
    ∧ cmd_touch rootTable (cmd_touch rootTable rootFS 0 nameB true true).2.1 0 nameB
        true true
      = (rootTable, (cmd_touch rootTable rootFS 0 nameB true true).2.1, []) := by
  have h := c4_touch_idempotent.2 rootTable rootFS 0 nameB 1 []
    (by decide) (by intro e he; cases he) (by decide) (by decide) (by decide)
  exact ⟨h.1, h.2 rootTable true true⟩

/-- C10: two source names with the same 32-byte encoding are
indistinguishable — `dir_find` treats them identically, so when the first
is present, `mkdir` of the second reports "already exists" and changes
nothing, and `touch` of the second is a silent no-op; in particular after
creating the first (by `touch`) in a well-formed directory, both hold for
the second. -/
theorem c10_encoding_collision (n1 n2 : List Nat)
    (henc : make_name32 n1 = make_name32 n2) :
    (∀ (fs : FS) (d : Nat), dir_find fs d n1 = dir_find fs d n2)
    ∧ (∀ (t : InodeTable) (fs : FS) (cwd : Nat) (co ao : Bool),
        (dir_find fs cwd n1).isSome = true →
        cmd_mkdir t fs cwd n2 co ao = (t, fs, ["mkdir: already exists"])
        ∧ cmd_touch t fs cwd n2 co ao = (t, fs, []))
    ∧ (∀ (t : InodeTable) (fs : FS) (cwd : Nat) (i : Nat) (es : List DirEnt)
        (t' : InodeTable) (co ao : Bool),
        fs cwd = some (encodeEnts es) → ValidEnts es →
        dir_find fs cwd n1 = none → find_free_inode t = some i →
        (t cwd).used = true →
        cmd_mkdir t' (cmd_touch t fs cwd n1 true true).2.1 cwd n2 co ao
          = (t', (cmd_touch t fs cwd n1 true true).2.1, ["mkdir: already exists"])
        ∧ cmd_touch t' (cmd_touch t fs cwd n1 true true).2.1 cwd n2 co ao
          = (t', (cmd_touch t fs cwd n1 true true).2.1, [])) := by
  have hsame : ∀ (fs : FS) (d : Nat), dir_find fs d n1 = dir_find fs d n2 := by
    intro fs d
    unfold dir_find
    rw [henc]
  refine ⟨hsame, ?_, ?_⟩
  · intro t fs cwd co ao h
    rw [hsame fs cwd] at h
    exact ⟨cmd_mkdir_dup t fs cwd n2 co ao h, cmd_touch_dup t fs cwd n2 co ao h⟩
  · intro t fs cwd i es t' co ao hfs hv hnf hfree hcwd
    obtain ⟨hstream, hvnew, _, hfind⟩ :=
      touch_success_stream t fs cwd n1 i es hfs hv hnf hfree hcwd
    have hfound : (dir_find (cmd_touch t fs cwd n1 true true).2.1 cwd n1).isSome
        = true := by
      rw [dir_find_wf n1 hstream hvnew, List.find?_append, hfind]
      simp
    rw [hsame] at hfound
    exact ⟨cmd_mkdir_dup t' _ cwd n2 co ao hfound,
      cmd_touch_dup t' _ cwd n2 co ao hfound⟩

/-- Witness for C10: the 40-byte name and its first 33 bytes differ as
source names but share their 32-byte encoding; after `touch` of the long
name at the root-only state, `mkdir` of the short one reports
"already exists" and `touch` of it is a no-op. -/
theorem c10_encoding_collision_witness :
    name40 ≠ name40.take 33
    ∧ cmd_mkdir rootTable (cmd_touch rootTable rootFS 0 name40 true true).2.1 0
        (name40.take 33) true true
      = (rootTable, (cmd_touch rootTable rootFS 0 name40 true true).2.1,
          ["mkdir: already exists"])
    ∧ cmd_touch rootTable (cmd_touch rootTable rootFS 0 name40 true true).2.1 0
        (name40.take 33) true true
      = (rootTable, (cmd_touch rootTable rootFS 0 name40 true true).2.1, []) := by
  have h := (c10_encoding_collision name40 (name40.take 33) (by decide)).2.2
    rootTable rootFS 0 1 [] rootTable true true
    (by decide) (by intro e he; cases he) (by decide) (by decide) (by decide)
  exact ⟨by decide, h.1, h.2⟩

/-! ### The save/load round trip -/

theorem mem_save_inodes_list (t : InodeTable) (r : Nat × Char) :
    r ∈ save_inodes_list t ↔
      r.1 < MAX_INODES ∧ (t r.1).used = true ∧ r.2 = (t r.1).type := by
  unfold save_inodes_list
  rw [List.mem_filterMap]
  constructor
  · intro ⟨a, ha, hfa⟩
    by_cases hu : (t a).used = true
    · rw [if_pos hu] at hfa
      obtain ⟨h1, h2⟩ := Prod.mk.injEq .. ▸ (Option.some.injEq .. ▸ hfa :
        (a, (t a).type) = r)
      rw [← h1]
      exact ⟨by simpa [List.mem_range] using ha, hu, h2.symm⟩
    · rw [if_neg hu] at hfa
      cases hfa
  · intro ⟨h1, h2, h3⟩
    refine ⟨r.1, by simpa [List.mem_range] using h1, ?_⟩
    rw [if_pos h2, ← h3]

theorem save_inodes_list_pairwise (t : InodeTable) :
    (save_inodes_list t).Pairwise (fun a b => a.1 < b.1) := by
  unfold save_inodes_list
  rw [List.pairwise_filterMap]
  refine (List.pairwise_lt_range MAX_INODES).imp ?_
  intro a b hab x hx y hy
  have hxa : x.1 = a := by
    by_cases hu : (t a).used = true
    · rw [if_pos hu] at hx
      cases hx
      rfl
    · rw [if_neg hu] at hx
      cases hx
  have hyb : y.1 = b := by
    by_cases hu : (t b).used = true
    · rw [if_pos hu] at hy
      cases hy
      rfl
    · rw [if_neg hu] at hy
      cases hy
  rw [hxa, hyb]
  exact hab

theorem load_inodes_list_skip (j : Nat) :
    ∀ (recs : List (Nat × Char)) (t0 : InodeTable),
      (∀ r ∈ recs, r.1 ≠ j) → load_inodes_list recs t0 j = t0 j := by
  intro recs
  induction recs with
  | nil => intro t0 _; rfl
  | cons r rs ih =>
    intro t0 h
    show load_inodes_list rs (loadRecord t0 r) j = t0 j
    rw [ih (loadRecord t0 r) (fun x hx => h x (List.mem_cons_of_mem r hx))]
    unfold loadRecord
    by_cases h1 : MAX_INODES ≤ r.1
    · rw [if_pos h1]
    · rw [if_neg h1]
      by_cases h2 : r.2 ≠ 'd' ∧ r.2 ≠ 'f'
      · rw [if_pos h2]
      · rw [if_neg h2]
        exact updateTable_other t0 r.1 j _ (Ne.symm (h r (List.mem_cons_self r rs)))

theorem load_save_point_used (t : InodeTable) (j : Nat) (hj : j < MAX_INODES)
    (hused : (t j).used = true) (hty : (t j).type = 'd' ∨ (t j).type = 'f') :
    load_inodes_list (save_inodes_list t) freshTable j = ⟨true, (t j).type⟩ := by
  have hmem : ((j, (t j).type) : Nat × Char) ∈ save_inodes_list t :=
    (mem_save_inodes_list t (j, (t j).type)).2 ⟨hj, hused, rfl⟩
  obtain ⟨l1, l2, hdec⟩ := List.append_of_mem hmem
  have hpw := save_inodes_list_pairwise t
  rw [hdec] at hpw
  have htail : ((j, (t j).type) :: l2).Pairwise (fun a b => a.1 < b.1) :=
    List.Pairwise.sublist (List.sublist_append_right l1 _) hpw
  have hl2 : ∀ r ∈ l2, r.1 ≠ j := by
    intro r hr
    have := (List.pairwise_cons.1 htail).1 r hr
    omega
  rw [hdec]
  unfold load_inodes_list
  rw [List.foldl_append]
  show load_inodes_list ((j, (t j).type) :: l2) (load_inodes_list l1 freshTable) j = _
  show load_inodes_list l2
    (loadRecord (load_inodes_list l1 freshTable) (j, (t j).type)) j = _
  rw [load_inodes_list_skip j l2 _ hl2]
  unfold loadRecord
  rw [if_neg (by dsimp only; omega)]
  rw [if_neg (by dsimp only [ne_eq]; intro hc; exact absurd (hty.resolve_left hc.1) hc.2)]
  exact updateTable_same _ _ _

theorem load_save_point_free (t : InodeTable) (j : Nat)
    (hfree : (t j).used = false) :
    load_inodes_list (save_inodes_list t) freshTable j = freshTable j := by
  apply load_inodes_list_skip
  intro r hr hrj
  have := (mem_save_inodes_list t r).1 hr
  rw [hrj] at this
  rw [this.2.1] at hfree
  cases hfree

/-- C1: the save/load round trip — saving an inode table whose used slots
all carry tag 'd' or 'f' (one record per used slot, ascending index order)
and loading the records into a fresh all-free table reproduces exactly the
original used-slot `(index, type)` records; the table is a pure map, so
this holds whatever order the slots were originally marked used in. -/
theorem c1_save_load_roundtrip (t : InodeTable)
    (hvalid : ∀ i, i < MAX_INODES → (t i).used = true →
      (t i).type = 'd' ∨ (t i).type = 'f') :
    save_inodes_list (load_inodes_list (save_inodes_list t) freshTable)
      = save_inodes_list t := by
  show (List.range MAX_INODES).filterMap
      (fun i => if (load_inodes_list (save_inodes_list t) freshTable i).used = true
        then some (i, (load_inodes_list (save_inodes_list t) freshTable i).type)
        else none)
    = (List.range MAX_INODES).filterMap
      (fun i => if (t i).used = true then some (i, (t i).type) else none)
  apply List.filterMap_congr
  intro i hi
  have hilt : i < MAX_INODES := by simpa [List.mem_range] using hi
  by_cases hu : (t i).used = true
  · have hpt := load_save_point_used t i hilt hu (hvalid i hilt hu)
    rw [hpt]
    simp [hu]
  · have hfree : (t i).used = false := by
      cases h : (t i).used
      · rfl
      · exact absurd h hu
    have hpt := load_save_point_free t i hfree
    rw [hpt]
    simp [freshTable, hfree]

/-- Witness for C1: a table with used slots 0 (directory) and 5 (file)
round-trips to the same record list. -/
theorem c1_save_load_roundtrip_witness :
    save_inodes_list (load_inodes_list
        (save_inodes_list (updateTable rootTable 5 ⟨true, 'f'⟩)) freshTable)
      = save_inodes_list (updateTable rootTable 5 ⟨true, 'f'⟩) :=
  c1_save_load_roundtrip (updateTable rootTable 5 ⟨true, 'f'⟩) (by decide)

end FsEmulator
